import Mathlib

/-!
Verification of the odra-cli schema-driven marshalling core: the recursive
type-descriptor model, the leaf codec (`into_bytes` / `from_bytes` of
src/types.rs), the flattener (`flat_arg`), the composer (`compose`,
`ComposedArg::flush`, `build_complex_arg`) and the decoder (`decode`) of
src/args.rs, as a shallow embedding.

Modelling conventions:
* Bytes are `Nat`s; every encoder produces values `< 256`.  Machine-integer
  casts are modelled with explicit `% 256^k` arithmetic.
* Fallible Rust functions returning `Result<_, Error>` become
  `Except Error _`.  A Rust panic (an `expect`, `unwrap`, `unreachable!` or
  out-of-range slice index) is modelled as the distinguished error value
  `Error.panicked msg`; it is still an `Except.error`, but it marks a panic
  of the source, not a returned error.
* The source recurses through the type registry, which terminates only
  because real schemas are acyclic.  Registry-recursive functions therefore
  take a fuel argument that every recursive call decrements; exhaustion is
  `Error.outOfFuel`.  Purely structural recursion (the leaf codec) needs no
  fuel.
* External library primitives (casper-types `bytesrepr`, `hex`, integer
  `FromStr`, `serde_json` pretty printing, `Key`/`URef`/`PublicKey`
  formatting) are modelled explicitly; each model is documented at its
  definition.
-/

/-- Type descriptors of the schema, mirroring `NamedCLType` of
`casper_contract_schema` as used by src/types.rs. -/
inductive NamedCLType where
  | bool
  | i32
  | i64
  | u8
  | u32
  | u64
  | u128
  | u256
  | u512
  | string
  | key
  | uref
  | publicKey
  | unit
  | option (t : NamedCLType)
  | list (t : NamedCLType)
  | byteArray (n : Nat)
  | result (ok err : NamedCLType)
  | map (k v : NamedCLType)
  | tuple1 (t : NamedCLType)
  | tuple2 (t1 t2 : NamedCLType)
  | tuple3 (t1 t2 t3 : NamedCLType)
  | custom (name : String)
  deriving DecidableEq, Repr

/-- Error values of src/types.rs (`enum Error`), extended with `panicked`
(modelling a Rust panic: `expect`, `unwrap`, `unreachable!`, slice index out
of range) and `outOfFuel` (modelling divergence on a cyclic registry). -/
inductive Error where
  | invalidHexString
  | hexDecodeError
  | parseError (s : String)
  | bigUintError (s : String)
  | serializationError
  | deserializationError
  | invalidURef
  | invalidPublicKey
  | invalidMap
  | formatting (s : String)
  | other (s : String)
  | panicked (msg : String)
  | outOfFuel
  deriving DecidableEq, Repr

/-- Little-endian bytes of `n` as a `u32` (`u32::to_bytes` of casper
bytesrepr); the `% 256` arithmetic realises the `as u32` truncation. -/
def u32le (n : Nat) : List Nat :=
  [n % 256, n / 256 % 256, n / 65536 % 256, n / 16777216 % 256]

/-- Little-endian bytes of `n` as a `u64` (`u64::to_bytes`). -/
def u64le (n : Nat) : List Nat :=
  [n % 256, n / 256 % 256, n / 65536 % 256, n / 16777216 % 256,
   n / 4294967296 % 256, n / 1099511627776 % 256, n / 281474976710656 % 256,
   n / 72057594037927936 % 256]

/-- Value of a little-endian byte list. -/
def leNat (bs : List Nat) : Nat :=
  bs.foldr (fun b acc => b + 256 * acc) 0

/-- Minimal little-endian magnitude bytes of `n` (empty for `0`): the
payload layout of the casper big unsigned integers. -/
def minLE (n : Nat) : List Nat :=
  if n = 0 then [] else n % 256 :: minLE (n / 256)
decreasing_by exact Nat.div_lt_self (Nat.pos_of_ne_zero (by assumption)) (by omega)

/-- Digit characters to a number: `none` unless every character is an ASCII
digit (an empty list gives `some 0` for the callers that accept it). -/
def decDigits : List Char → Option Nat
  | [] => some 0
  | c :: cs =>
    if '0' ≤ c ∧ c ≤ '9' then
      (decDigits cs).map (fun rest => rest + (c.toNat - 48) * 10 ^ cs.length)
    else none

/-- Rust `str::parse` for an unsigned integer type with maximum `max`
(`u8::MAX`, `u32::MAX`, ...): an optional leading `+`, then at least one
decimal digit, and the value must fit.  Models `FromStr` of the unsigned
primitives. -/
def parseRustUInt (max : Nat) (s : List Char) : Option Nat :=
  let digits := match s with
    | '+' :: rest => rest
    | l => l
  if digits.isEmpty then none
  else match decDigits digits with
    | none => none
    | some v => if v ≤ max then some v else none

/-- Rust `str::parse` for a signed integer type with bounds `[lo, hi]`:
an optional sign, then at least one digit, value within bounds.  Models
`FromStr` of `i32` / `i64`. -/
def parseRustInt (lo hi : Int) (s : List Char) : Option Int :=
  let (neg, digits) := match s with
    | '-' :: rest => (true, rest)
    | '+' :: rest => (false, rest)
    | l => (false, l)
  if digits.isEmpty then none
  else match decDigits digits with
    | none => none
    | some v =>
      let i : Int := if neg then -(v : Int) else (v : Int)
      if lo ≤ i ∧ i ≤ hi then some i else none

/-- Rust `bool::from_str`: exactly the strings `true` and `false`. -/
def parseRustBool (s : String) : Option Bool :=
  if s = "true" then some true
  else if s = "false" then some false
  else none

/-- Hexadecimal value of one character, `none` for a non-hex character. -/
def hexVal (c : Char) : Option Nat :=
  if '0' ≤ c ∧ c ≤ '9' then some (c.toNat - 48)
  else if 'a' ≤ c ∧ c ≤ 'f' then some (c.toNat - 87)
  else if 'A' ≤ c ∧ c ≤ 'F' then some (c.toNat - 55)
  else none

/-- The `hex` crate's `hex::decode`: an even number of hex digits, two
digits per byte; `none` on an odd length or a non-hex character. -/
def hexDecodeChars : List Char → Option (List Nat)
  | [] => some []
  | c1 :: c2 :: rest =>
    match hexVal c1, hexVal c2 with
    | some hi, some lo => (hexDecodeChars rest).map (fun bs => (16 * hi + lo) :: bs)
    | _, _ => none
  | [_] => none

/-- Lowercase hex digit character of a value `< 16`. -/
def hexDigit (n : Nat) : Char :=
  if n < 10 then Char.ofNat (48 + n) else Char.ofNat (87 + n)

/-- Lowercase two-digit hex rendering of a byte list (Rust
`format!("\x7b:02x\x7d", b)` concatenated). -/
def hexStr (bs : List Nat) : String :=
  ⟨bs.flatMap (fun b => [hexDigit (b / 16 % 16), hexDigit (b % 16)])⟩

/-- UTF-8 bytes of one scalar value. -/
def utf8Char (c : Char) : List Nat :=
  let n := c.toNat
  if n < 128 then [n]
  else if n < 2048 then [192 + n / 64, 128 + n % 64]
  else if n < 65536 then [224 + n / 4096, 128 + n / 64 % 64, 128 + n % 64]
  else [240 + n / 262144, 128 + n / 4096 % 64, 128 + n / 64 % 64, 128 + n % 64]

/-- UTF-8 bytes of a string (Rust `str::as_bytes`). -/
def utf8Bytes (s : String) : List Nat :=
  s.data.flatMap utf8Char

/-- Strict UTF-8 decoding (Rust `String::from_utf8`): rejects stray or
missing continuation bytes, overlong forms, surrogates and values past
`0x10FFFF`. -/
def utf8Decode : List Nat → Option (List Char)
  | [] => some []
  | b :: rest =>
    if b < 128 then (utf8Decode rest).map (fun cs => Char.ofNat b :: cs)
    else if b < 194 then none
    else if b < 224 then
      match rest with
      | b2 :: rest2 =>
        if 128 ≤ b2 ∧ b2 < 192 then
          (utf8Decode rest2).map (fun cs => Char.ofNat ((b - 192) * 64 + (b2 - 128)) :: cs)
        else none
      | _ => none
    else if b < 240 then
      match rest with
      | b2 :: b3 :: rest3 =>
        let n := (b - 224) * 4096 + (b2 - 128) * 64 + (b3 - 128)
        if 128 ≤ b2 ∧ b2 < 192 ∧ 128 ≤ b3 ∧ b3 < 192 ∧ 2048 ≤ n ∧
            ¬ (55296 ≤ n ∧ n ≤ 57343) then
          (utf8Decode rest3).map (fun cs => Char.ofNat n :: cs)
        else none
      | _ => none
    else if b < 245 then
      match rest with
      | b2 :: b3 :: b4 :: rest4 =>
        let n := (b - 240) * 262144 + (b2 - 128) * 4096 + (b3 - 128) * 64 + (b4 - 128)
        if 128 ≤ b2 ∧ b2 < 192 ∧ 128 ≤ b3 ∧ b3 < 192 ∧ 128 ≤ b4 ∧ b4 < 192 ∧
            65536 ≤ n ∧ n ≤ 1114111 then
          (utf8Decode rest4).map (fun cs => Char.ofNat n :: cs)
        else none
      | _ => none
    else none

/-- Splitting a character list at every occurrence of `sep` (Rust
`str::split`): never empty, an empty input gives `[[]]`, separators at the
ends give empty pieces. -/
def splitChar (sep : Char) : List Char → List (List Char)
  | [] => [[]]
  | c :: rest =>
    let r := splitChar sep rest
    if c = sep then [] :: r else (c :: r.headI) :: r.tail

/-- String pieces of `s` split at `sep` (`str::split` collected). -/
def splitStr (sep : Char) (s : String) : List String :=
  (splitChar sep s.data).map (fun cs => ⟨cs⟩)

/-- Whether the character list starts with `0x` (the receiver of
`str::starts_with("0x")` / the successful guard of `strip_prefix("0x")`). -/
def has0x : List Char → Bool
  | '0' :: 'x' :: _ => true
  | _ => false

/-- Tag byte of an absent `Option` (casper bytesrepr `OPTION_NONE_TAG`). -/
def OPTION_NONE_TAG : Nat := 0

/-- Tag byte of a present `Option` (casper bytesrepr `OPTION_SOME_TAG`). -/
def OPTION_SOME_TAG : Nat := 1

/-- Tag byte of `Result::Err` (casper bytesrepr `RESULT_ERR_TAG`). -/
def RESULT_ERR_TAG : Nat := 0

/-- Tag byte of `Result::Ok` (casper bytesrepr `RESULT_OK_TAG`). -/
def RESULT_OK_TAG : Nat := 1

/-- Port of `parse_hex` of src/types.rs: `strip_prefix("0x")` then
`hex::decode`, with `InvalidHexString` for a missing prefix and
`HexDecodeError` for a failed decode. -/
def parse_hex (input : String) : Except Error (List Nat) :=
  match input.data with
  | '0' :: 'x' :: rest =>
    match hexDecodeChars rest with
    | some bs => .ok bs
    | none => .error .hexDecodeError
  | _ => .error .invalidHexString

/-- Port of `validate_byte_array_size` of src/types.rs. -/
def validate_byte_array_size (expected actual : Nat) : Except Error Unit :=
  if actual ≠ expected then
    .error (.formatting ("Invalid byte array: expected size " ++ Nat.repr expected ++
      ", actual " ++ Nat.repr actual))
  else .ok ()

/-- Models the external `odra::Address` `FromStr` composed with its
casper-`Key` serialization, for the two formatted shapes the CLI accepts:
`account-hash-<64 hex>` (tag 0) and `hash-<64 hex>` (tag 1); anything else
fails like `parse_value::<Address>`. -/
def addressBytes (input : String) : Option (List Nat) :=
  match input.data with
  | 'a' :: 'c' :: 'c' :: 'o' :: 'u' :: 'n' :: 't' :: '-' :: 'h' :: 'a' :: 's' :: 'h' :: '-' :: rest =>
    match hexDecodeChars rest with
    | some bs => if bs.length = 32 then some (0 :: bs) else none
    | none => none
  | 'h' :: 'a' :: 's' :: 'h' :: '-' :: rest =>
    match hexDecodeChars rest with
    | some bs => if bs.length = 32 then some (1 :: bs) else none
    | none => none
  | _ => none

/-- Models the external `URef::from_formatted_str` composed with `to_bytes`:
`uref-<64 hex>-<octal access ≤ 7>`, serialized as 32 address bytes and one
access byte. -/
def urefBytes (input : String) : Option (List Nat) :=
  match input.data with
  | 'u' :: 'r' :: 'e' :: 'f' :: '-' :: rest =>
    match splitChar '-' rest with
    | [hexPart, accPart] =>
      match hexDecodeChars hexPart, decDigits accPart with
      | some bs, some acc =>
        if bs.length = 32 ∧ acc ≤ 7 ∧ ¬ accPart.isEmpty ∧ accPart.all (fun c => c ≤ '7') then
          some (bs ++ [acc])
        else none
      | _, _ => none
    | _ => none
  | _ => none

/-- Models the external `URef` `from_bytes` + `Display`: 32 address bytes
and one access byte, shown as `uref-<hex>-<3-digit access>`. -/
def urefFromBytes (bs : List Nat) : Except Error (String × List Nat) :=
  if 33 ≤ bs.length then
    .ok ("uref-" ++ hexStr (bs.take 32) ++ "-0" ++ "0" ++ Nat.repr (bs.getD 32 0),
      bs.drop 33)
  else .error .serializationError

/-- Models the external `PublicKey::from_hex` composed with `to_bytes`:
`01` + 64 hex digits (ed25519) or `02` + 66 hex digits (secp256k1), kept as
the tag byte followed by the raw key bytes. -/
def pkBytes (input : String) : Option (List Nat) :=
  match input.data with
  | '0' :: '1' :: rest =>
    match hexDecodeChars rest with
    | some bs => if bs.length = 32 then some (1 :: bs) else none
    | none => none
  | '0' :: '2' :: rest =>
    match hexDecodeChars rest with
    | some bs => if bs.length = 33 then some (2 :: bs) else none
    | none => none
  | _ => none

/-- Models the external `PublicKey` `from_bytes` + `Display` (the tagged
hex string). -/
def pkFromBytes : List Nat → Except Error (String × List Nat)
  | 1 :: rest =>
    if 32 ≤ rest.length then
      .ok ("01" ++ hexStr (rest.take 32), rest.drop 32)
    else .error .serializationError
  | 2 :: rest =>
    if 33 ≤ rest.length then
      .ok ("02" ++ hexStr (rest.take 33), rest.drop 33)
    else .error .serializationError
  | _ => .error .serializationError

/-- Models the external `casper_types::Key` `from_bytes` + `Display` for the
`Hash` variant (tag 1, 32 bytes, shown `Key::Hash(<hex>)`), the only key
shape this repository's tests decode; other tags are modelled as failures. -/
def keyFromBytes : List Nat → Except Error (String × List Nat)
  | 1 :: rest =>
    if 32 ≤ rest.length then
      .ok ("Key::Hash(" ++ hexStr (rest.take 32) ++ ")", rest.drop 32)
    else .error .serializationError
  | _ => .error .serializationError

/-- Models `U128/U256/U512::from_dec_str` (decimal digits only, overflow
checked) composed with the casper `to_bytes` layout: one length byte, then
the minimal little-endian magnitude. -/
def bigToBytes (bits : Nat) (input : String) : Except Error (List Nat) :=
  match decDigits input.data with
  | none => .error (.bigUintError input)
  | some v =>
    if v < 2 ^ bits then .ok ((minLE v).length :: minLE v)
    else .error (.bigUintError input)

/-- Models casper `from_bytes` of the big unsigned integers: a length byte
bounded by the type's byte width, then that many little-endian magnitude
bytes, rendered as decimal text. -/
def bigFromBytes (byteWidth : Nat) : List Nat → Except Error (String × List Nat)
  | [] => .error .serializationError
  | len :: rest =>
    if len ≤ byteWidth ∧ len ≤ rest.length then
      .ok (Nat.repr (leNat (rest.take len)), rest.drop len)
    else .error .serializationError

/-- Signed display of an integer (Rust `Display` for `i32` / `i64`). -/
def intRepr (i : Int) : String :=
  if i < 0 then "-" ++ Nat.repr i.natAbs else Nat.repr i.toNat

/-- Two's-complement reading of `w*8`-bit little-endian value `n`. -/
def twosComp (w n : Nat) : Int :=
  if n < 2 ^ (8 * w - 1) then (n : Int) else (n : Int) - 2 ^ (8 * w)

/-- Models `u32::from_bytes` of casper bytesrepr as the source's
`_from_bytes::<u32>` wrapper uses it (errors become
`DeserializationError`). -/
def readU32 : List Nat → Except Error (Nat × List Nat)
  | b0 :: b1 :: b2 :: b3 :: rest =>
    .ok (b0 + 256 * b1 + 65536 * b2 + 16777216 * b3, rest)
  | _ => .error .deserializationError

/-- Models `String::from_bytes` of casper bytesrepr as wrapped by the
source's `call_from_bytes` macro: a `u32` length, that many bytes, strict UTF-8;
every failure becomes `SerializationError`. -/
def stringFromBytes : List Nat → Except Error (String × List Nat)
  | b0 :: b1 :: b2 :: b3 :: rest =>
    let len := b0 + 256 * b1 + 65536 * b2 + 16777216 * b3
    if len ≤ rest.length then
      match utf8Decode (rest.take len) with
      | some cs => .ok (⟨cs⟩, rest.drop len)
      | none => .error .serializationError
    else .error .serializationError
  | _ => .error .serializationError

/-- Splitting of every map entry `key:value` (the closure inside the `Map`
arm of `into_bytes`); a part without exactly one `:` fails. -/
def mapEntryPairs (parts : List (List Char)) : Except Error (List (List Char × List Char)) :=
  parts.mapM (fun part =>
    match splitChar ':' part with
    | [k, v] => .ok (k, v)
    | _ => .error (.formatting "Invalid map. Expected format is \x7bkey\x7d:\x7bvalue\x7d"))

/-- The element loop of the `List` arm of `from_bytes`: run the element
decoder `count` times over the stream, collecting the texts. -/
def decodeTimes (dec : List Nat → Except Error (String × List Nat)) :
    Nat → List Nat → Except Error (List String × List Nat)
  | 0, stream => .ok ([], stream)
  | k + 1, stream => do
    let (v, rem) ← dec stream
    let (vs, rem2) ← decodeTimes dec k rem
    .ok (v :: vs, rem2)

/-- The entry loop of the `Map` arm of `from_bytes`: decode `count` key and
value pairs, each rendered `key:value`. -/
def decodePairsTimes (decK decV : List Nat → Except Error (String × List Nat)) :
    Nat → List Nat → Except Error (List String × List Nat)
  | 0, stream => .ok ([], stream)
  | k + 1, stream => do
    let (kv, rem) ← decK stream
    let (vv, rem2) ← decV rem
    let (rest, rem3) ← decodePairsTimes decK decV k rem2
    .ok ((kv ++ ":" ++ vv) :: rest, rem3)

/-- Port of `into_bytes` of src/types.rs: textual value of a leaf type to
its casper wire bytes.  The `Custom` arm is the source's
`unreachable!("should not be here")`. -/
def into_bytes : NamedCLType → String → Except Error (List Nat)
  | .bool, input =>
    match parseRustBool input with
    | some b => .ok [if b then 1 else 0]
    | none => .error (.parseError input)
  | .i32, input =>
    match parseRustInt (-(2 ^ 31)) (2 ^ 31 - 1) input.data with
    | some i => .ok (u32le (i.emod (2 ^ 32)).toNat)
    | none => .error (.parseError input)
  | .i64, input =>
    match parseRustInt (-(2 ^ 63)) (2 ^ 63 - 1) input.data with
    | some i => .ok (u64le (i.emod (2 ^ 64)).toNat)
    | none => .error (.parseError input)
  | .u8, input =>
    match parseRustUInt 255 input.data with
    | some n => .ok [n]
    | none => .error (.parseError input)
  | .u32, input =>
    match parseRustUInt 4294967295 input.data with
    | some n => .ok (u32le n)
    | none => .error (.parseError input)
  | .u64, input =>
    match parseRustUInt 18446744073709551615 input.data with
    | some n => .ok (u64le n)
    | none => .error (.parseError input)
  | .u128, input => bigToBytes 128 input
  | .u256, input => bigToBytes 256 input
  | .u512, input => bigToBytes 512 input
  | .string, input =>
    if (utf8Bytes input).length < 4294967296 then
      .ok (u32le (utf8Bytes input).length ++ utf8Bytes input)
    else .error .serializationError
  | .key, input =>
    match addressBytes input with
    | some bs => .ok bs
    | none => .error (.parseError input)
  | .uref, input =>
    match urefBytes input with
    | some bs => .ok bs
    | none => .error .invalidURef
  | .publicKey, input =>
    match pkBytes input with
    | some bs => .ok bs
    | none => .error .invalidPublicKey
  | .option t, input =>
    if input = "none" then .ok [OPTION_NONE_TAG]
    else
      match input.data with
      | 's' :: 'o' :: 'm' :: 'e' :: ':' :: rest => do
        let bs ← into_bytes t ⟨rest⟩
        .ok (OPTION_SOME_TAG :: bs)
      | _ => .error (.formatting "Invalid option variant")
  | .result okT errT, input =>
    match input.data with
    | 'e' :: 'r' :: 'r' :: ':' :: rest => do
      let bs ← into_bytes errT ⟨rest⟩
      .ok (RESULT_ERR_TAG :: bs)
    | 'o' :: 'k' :: ':' :: rest => do
      let bs ← into_bytes okT ⟨rest⟩
      .ok (RESULT_OK_TAG :: bs)
    | _ => .error (.formatting "Invalid result variant")
  | .tuple1 t, input => into_bytes t input
  | .tuple2 t1 t2, input =>
    match splitChar ',' input.data with
    | [p1, p2] => do
      let b1 ← into_bytes t1 ⟨p1⟩
      let b2 ← into_bytes t2 ⟨p2⟩
      .ok (b1 ++ b2)
    | parts =>
      .error (.formatting ("Invalid tuple: expected size 2, actual " ++ Nat.repr parts.length))
  | .tuple3 t1 t2 t3, input =>
    match splitChar ',' input.data with
    | [p1, p2, p3] => do
      let b1 ← into_bytes t1 ⟨p1⟩
      let b2 ← into_bytes t2 ⟨p2⟩
      let b3 ← into_bytes t3 ⟨p3⟩
      .ok (b1 ++ b2 ++ b3)
    | parts =>
      .error (.formatting ("Invalid tuple: expected size 3, actual " ++ Nat.repr parts.length))
  | .unit, _ => .ok []
  | .map kT vT, input => do
    let pairs ← mapEntryPairs (splitChar ',' input.data)
    let encs ← pairs.mapM (fun kv => do
      let bk ← into_bytes kT ⟨kv.1⟩
      let bv ← into_bytes vT ⟨kv.2⟩
      .ok (bk ++ bv))
    .ok (u32le pairs.length ++ encs.flatten)
  | .list t, input => do
    let encs ← (splitChar ',' input.data).mapM (fun p => into_bytes t ⟨p⟩)
    .ok (u32le encs.length ++ encs.flatten)
  | .byteArray n, input =>
    match parse_hex input with
    | .ok data => do
      validate_byte_array_size n data.length
      .ok data
    | .error .invalidHexString => do
      let parts := splitChar ',' input.data
      validate_byte_array_size n parts.length
      if parts.all (fun p => has0x p) then do
        let bss ← parts.mapM (fun _ => parse_hex input)
        .ok bss.flatten
      else
        match parts.mapM (fun p => parseRustUInt 255 p) with
        | some bytes => .ok bytes
        | none => .error (.formatting "Invalid byte array")
    | .error e => .error e
  | .custom _, _ => .error (.panicked "should not be here")

/-- Port of `vec_into_bytes` of src/types.rs: a 4-byte count of the
supplied values, then each value's encoding in order. -/
def vec_into_bytes (ty : NamedCLType) (input : List String) : Except Error (List Nat) := do
  let encs ← input.mapM (fun v => into_bytes ty v)
  .ok (u32le input.length ++ encs.flatten)

/-- Port of `from_bytes` of src/types.rs: wire bytes of a leaf type to its
textual rendering and the unconsumed remainder.  The `Option` arm returns
the whole input (tag byte included) as the remainder in the `none` case and
panics on an empty buffer, exactly as the source's `&input[1..]` does; the
`Custom` arm is the source's `unreachable!`. -/
def from_bytes : NamedCLType → List Nat → Except Error (String × List Nat)
  | .bool, input =>
    match input with
    | 0 :: rest => .ok ("false", rest)
    | 1 :: rest => .ok ("true", rest)
    | _ => .error .serializationError
  | .i32, input =>
    match input with
    | b0 :: b1 :: b2 :: b3 :: rest =>
      .ok (intRepr (twosComp 4 (b0 + 256 * b1 + 65536 * b2 + 16777216 * b3)), rest)
    | _ => .error .serializationError
  | .i64, input =>
    match input with
    | b0 :: b1 :: b2 :: b3 :: b4 :: b5 :: b6 :: b7 :: rest =>
      .ok (intRepr (twosComp 8 (leNat [b0, b1, b2, b3, b4, b5, b6, b7])), rest)
    | _ => .error .serializationError
  | .u8, input =>
    match input with
    | b :: rest => .ok (Nat.repr b, rest)
    | _ => .error .serializationError
  | .u32, input =>
    match input with
    | b0 :: b1 :: b2 :: b3 :: rest =>
      .ok (Nat.repr (b0 + 256 * b1 + 65536 * b2 + 16777216 * b3), rest)
    | _ => .error .serializationError
  | .u64, input =>
    match input with
    | b0 :: b1 :: b2 :: b3 :: b4 :: b5 :: b6 :: b7 :: rest =>
      .ok (Nat.repr (leNat [b0, b1, b2, b3, b4, b5, b6, b7]), rest)
    | _ => .error .serializationError
  | .u128, input => bigFromBytes 16 input
  | .u256, input => bigFromBytes 32 input
  | .u512, input => bigFromBytes 64 input
  | .string, input => stringFromBytes input
  | .key, input => keyFromBytes input
  | .uref, input => urefFromBytes input
  | .publicKey, input => pkFromBytes input
  | .option t, input =>
    if input.head? = some OPTION_NONE_TAG then .ok ("null", input)
    else
      match input with
      | [] => .error (.panicked "slice start index 1 out of range")
      | _ :: rest => from_bytes t rest
  | .result okT errT, input =>
    match input with
    | [] => .error .deserializationError
    | tag :: rem =>
      if tag = RESULT_ERR_TAG then do
        let (v, rem2) ← from_bytes errT rem
        .ok ("Err(" ++ v ++ ")", rem2)
      else if tag = RESULT_OK_TAG then do
        let (v, rem2) ← from_bytes okT rem
        .ok ("Ok(" ++ v ++ ")", rem2)
      else .error (.other "Invalid result variant")
  | .tuple1 t, input => do
    let (v, rem) ← from_bytes t input
    .ok ("(" ++ v ++ ",)", rem)
  | .tuple2 t1 t2, input => do
    let (v1, rem) ← from_bytes t1 input
    let (v2, rem2) ← from_bytes t2 rem
    .ok ("(" ++ v1 ++ ", " ++ v2 ++ ")", rem2)
  | .tuple3 t1 t2 t3, input => do
    let (v1, rem) ← from_bytes t1 input
    let (v2, rem2) ← from_bytes t2 rem
    let (v3, rem3) ← from_bytes t3 rem2
    .ok ("(" ++ v1 ++ ", " ++ v2 ++ ", " ++ v3 ++ ")", rem3)
  | .unit, input => .ok ("", input)
  | .list t, input => do
    let (count, stream) ← readU32 input
    let (vals, rem) ← decodeTimes (fun bs => from_bytes t bs) count stream
    .ok (String.intercalate "," vals, rem)
  | .map kT vT, input => do
    let (count, stream) ← readU32 input
    let (entries, rem) ←
      decodePairsTimes (fun bs => from_bytes kT bs) (fun bs => from_bytes vT bs) count stream
    .ok (String.intercalate ", " entries, rem)
  | .byteArray n, input =>
    if input.length < n then .error (.panicked "index out of bounds")
    else
      .ok ("0x" ++ hexStr (input.take n) ++ " (" ++
        String.intercalate ", " ((input.take n).map Nat.repr) ++ ")", input.drop n)
  | .custom _, _ => .error (.panicked "should not be here")

/-- One flattened CLI leaf: `CommandArg` of src/args.rs. -/
structure CommandArg where
  name : String
  required : Bool
  description : String
  ty : NamedCLType
  is_list_element : Bool
  deriving DecidableEq, Repr

/-- A schema argument (`Argument` of casper_contract_schema): the root of
one flattening pass. -/
structure Argument where
  name : String
  ty : NamedCLType
  optional : Bool
  description : Option String
  deriving DecidableEq, Repr

/-- A struct member of a registry entry. -/
structure StructMember where
  name : String
  description : Option String
  ty : NamedCLType
  deriving DecidableEq, Repr

/-- An enum variant of a registry entry (`discriminant` is the schema's
`u16`). -/
structure EnumVariant where
  name : String
  description : Option String
  discriminant : Nat
  ty : NamedCLType
  deriving DecidableEq, Repr

/-- A registry entry: `CustomType` of casper_contract_schema. -/
inductive CustomType where
  | structDef (name : String) (members : List StructMember)
  | enumDef (name : String) (variants : List EnumVariant)
  deriving DecidableEq, Repr

/-- Name of a registry entry. -/
def CustomType.typeName : CustomType → String
  | .structDef n _ => n
  | .enumDef n _ => n

/-- The registry lookup both `flat_arg` and `decode` perform:
`types.iter().find(...)` by exact name. -/
def findType (types : List CustomType) (name : String) : Option CustomType :=
  types.find? (fun t => t.typeName = name)

/-- Port of `flat_arg` of src/args.rs: flatten one schema argument into
ordered CLI leaves.  `Custom` resolves through the registry (the
`expect("Type not found")` on a miss is the modelled panic); a struct
flat-maps each member, in declared order, into a child argument named
`parent.member` that inherits `optional`; an enum flat-maps each variant
into a child named `parent.variant.to_lowercase()`; `List` recurses into
the element type with `is_list_element` forced true; any other type emits
exactly one leaf with `required = !optional`.  Registry recursion is
fuelled, structurally on the fuel, which every recursive call
decrements. -/
def flat_arg : Nat → Argument → List CustomType → Bool → Except Error (List CommandArg)
  | 0, _, _, _ => .error .outOfFuel
  | fuel + 1, arg, types, is_list_elem =>
    match arg.ty with
    | .custom name =>
      match findType types name with
      | none => .error (.panicked "Type not found")
      | some (.structDef _ members) => do
        let parts ← members.mapM (fun m =>
          flat_arg fuel ⟨arg.name ++ "." ++ m.name, m.ty, arg.optional, m.description⟩
            types is_list_elem)
        .ok parts.flatten
      | some (.enumDef _ variants) => do
        let parts ← variants.mapM (fun v =>
          flat_arg fuel ⟨arg.name ++ "." ++ v.name.toLower, v.ty, arg.optional, v.description⟩
            types is_list_elem)
        .ok parts.flatten
    | .list inner =>
      flat_arg fuel ⟨arg.name, inner, arg.optional, arg.description⟩ types true
    | _ =>
      .ok [⟨arg.name, !arg.optional, arg.description.getD "", arg.ty, is_list_elem⟩]

/-- The flattening contract as §4.1 of the specification words it, used as
the comparison side of the refinement claim about `flat_arg`: a `Custom`
name resolves in the registry (failure is the spec's `UnknownType` error);
a struct contributes, for each member in declared order, the member's
leaves under `parent.member_name` with `optional` inherited; an enum
contributes, for each variant in declared order, leaves under
`parent.variant_name.to_lowercase()`; `List(inner)` recurses into `inner`
with `is_list_element` forced true; any other type emits exactly one leaf
whose `required` flag is the negation of the spec's `optional` flag.  It is
fuelled exactly as `flat_arg` is. -/
def specFlatten : Nat → Argument → List CustomType → Bool → Except Error (List CommandArg)
  | 0, _, _, _ => .error .outOfFuel
  | fuel + 1, spec, registry, is_list_elem =>
    match spec.ty with
    | .custom name =>
      match findType registry name with
      | none => .error (.other ("UnknownType: " ++ name))
      | some (.structDef _ members) => do
        let parts ← members.mapM (fun m =>
          specFlatten fuel ⟨spec.name ++ "." ++ m.name, m.ty, spec.optional, m.description⟩
            registry is_list_elem)
        .ok parts.flatten
      | some (.enumDef _ variants) => do
        let parts ← variants.mapM (fun v =>
          specFlatten fuel ⟨spec.name ++ "." ++ v.name.toLower, v.ty, spec.optional,
            v.description⟩ registry is_list_elem)
        .ok parts.flatten
    | .list inner =>
      specFlatten fuel ⟨spec.name, inner, spec.optional, spec.description⟩ registry true
    | _ =>
      .ok [⟨spec.name, !spec.optional, spec.description.getD "", spec.ty, is_list_elem⟩]

/-- One flag lookup of the CLI front end (`ArgMatches::get_many`): `none`
models an argument with no supplied values. -/
def lookupValues (supplied : List (String × List String)) (name : String) :
    Option (List String) :=
  (supplied.find? (fun p => p.1 = name)).map (fun p => p.2)

/-- One record of a flush: every column's encoding of its value at index
`i`, in group order (`values[i]` out of range is the modelled panic). -/
def encodeRecord : List (NamedCLType × List String) → Nat → Except Error (List Nat)
  | [], _ => .ok []
  | (ty, vs) :: cols, i =>
    match vs.get? i with
    | none => .error (.panicked "index out of bounds")
    | some v => do
      let bs ← into_bytes ty v
      let rest ← encodeRecord cols i
      .ok (bs ++ rest)

/-- The record loop of a flush: records `i, i+1, ..., i+k-1` in order. -/
def encodeRecordsFrom (cols : List (NamedCLType × List String)) : Nat → Nat →
    Except Error (List Nat)
  | _, 0 => .ok []
  | i, k + 1 => do
    let r ← encodeRecord cols i
    let rest ← encodeRecordsFrom cols (i + 1) k
    .ok (r ++ rest)

/-- Port of `ComposedArg::flush` of src/args.rs (the bytes it appends to
the buffer): nothing for an empty group, otherwise a 4-byte count equal to
the first column's value-list length followed by that many interleaved
records. -/
def flushGroup (cols : List (NamedCLType × List String)) : Except Error (List Nat) :=
  match cols with
  | [] => .ok []
  | (_, vs0) :: _ => do
    let body ← encodeRecordsFrom cols 0 vs0.length
    .ok (u32le vs0.length ++ body)

/-- The walk of `build_complex_arg` of src/args.rs over the flattened
leaves: state is the current group's parent segment, its columns, and the
output buffer.  An absent leaf value is the source's
`expect("Arg not found")` panic; a leaf path without a second-to-last
segment is the source's out-of-range index panic. -/
def buildWalk (supplied : List (String × List String)) :
    List CommandArg → String → List (NamedCLType × List String) → List Nat →
    Except Error (List Nat)
  | [], _, group, buffer => do
    let fb ← flushGroup group
    .ok (buffer ++ fb)
  | a :: rest, gname, group, buffer =>
    match lookupValues supplied a.name with
    | none => .error (.panicked "Arg not found")
    | some vals =>
      let parts := splitStr '.' a.name
      if parts.length < 2 then .error (.panicked "index out of bounds")
      else
        let parent := parts.getD (parts.length - 2) ""
        if gname ≠ parent ∧ a.is_list_element then do
          let fb ← flushGroup group
          buildWalk supplied rest parent [(a.ty, vals)] (buffer ++ fb)
        else if gname = parent ∧ a.is_list_element then
          buildWalk supplied rest gname (group ++ [(a.ty, vals)]) buffer
        else do
          let fb ← flushGroup group
          match vals with
          | [] => .error (.panicked "index out of bounds")
          | v :: _ => do
            let bs ← into_bytes a.ty v
            buildWalk supplied rest gname [] (buffer ++ fb ++ bs)

/-- Port of `build_complex_arg` of src/args.rs: the byte buffer of the
`CLValue` it builds from the flattened leaves and the CLI's values. -/
def build_complex_arg (args : List CommandArg) (supplied : List (String × List String)) :
    Except Error (List Nat) :=
  buildWalk supplied args "" [] []

/-- Runtime type tags of casper `CLType` as `named_cl_type_to_cl_type`
produces them (`Custom` becomes `Any`). -/
inductive CLType where
  | bool
  | i32
  | i64
  | u8
  | u32
  | u64
  | u128
  | u256
  | u512
  | string
  | key
  | uref
  | publicKey
  | unit
  | option (t : CLType)
  | list (t : CLType)
  | byteArray (n : Nat)
  | result (ok err : CLType)
  | map (k v : CLType)
  | tuple1 (t : CLType)
  | tuple2 (t1 t2 : CLType)
  | tuple3 (t1 t2 t3 : CLType)
  | any
  deriving DecidableEq, Repr

/-- Port of `named_cl_type_to_cl_type` of src/types.rs. -/
def named_cl_type_to_cl_type : NamedCLType → CLType
  | .bool => .bool
  | .i32 => .i32
  | .i64 => .i64
  | .u8 => .u8
  | .u32 => .u32
  | .u64 => .u64
  | .u128 => .u128
  | .u256 => .u256
  | .u512 => .u512
  | .string => .string
  | .key => .key
  | .uref => .uref
  | .publicKey => .publicKey
  | .unit => .unit
  | .option t => .option (named_cl_type_to_cl_type t)
  | .list t => .list (named_cl_type_to_cl_type t)
  | .byteArray n => .byteArray n
  | .result okT errT => .result (named_cl_type_to_cl_type okT) (named_cl_type_to_cl_type errT)
  | .map k v => .map (named_cl_type_to_cl_type k) (named_cl_type_to_cl_type v)
  | .tuple1 t => .tuple1 (named_cl_type_to_cl_type t)
  | .tuple2 t1 t2 => .tuple2 (named_cl_type_to_cl_type t1) (named_cl_type_to_cl_type t2)
  | .tuple3 t1 t2 t3 =>
    .tuple3 (named_cl_type_to_cl_type t1) (named_cl_type_to_cl_type t2)
      (named_cl_type_to_cl_type t3)
  | .custom _ => .any

/-- A `CLValue` as `CLValue::from_components` builds it: a runtime type tag
and the raw bytes. -/
abbrev CLValue := CLType × List Nat

/-- Port of `compose` of src/args.rs over an entry point's argument list:
per argument, flatten; with exactly one leaf, read the supplied strings
(`unwrap_or_default` makes an absent argument empty) and skip the argument
entirely when they are empty, else encode a `List` argument with
`vec_into_bytes` over the comma-split occurrences and any other type with
`into_bytes` on the first string; with several leaves, delegate to
`build_complex_arg` under `CLType::Any`.  The result is the inserted
`RuntimeArgs` in order. -/
def compose (fuel : Nat) (arguments : List Argument)
    (supplied : List (String × List String)) (types : List CustomType) :
    Except Error (List (String × CLValue)) :=
  match arguments with
  | [] => .ok []
  | arg :: rest => do
    let parts ← flat_arg fuel arg types false
    if parts.length = 1 then
      let input := (lookupValues supplied arg.name).getD []
      if input.isEmpty then compose fuel rest supplied types
      else do
        let entry ←
          match arg.ty with
          | .list inner => do
            let flatInput := (input.map (fun v => splitStr ',' v)).flatten
            let bytes ← vec_into_bytes inner flatInput
            .ok (arg.name, (CLType.list (named_cl_type_to_cl_type inner), bytes))
          | ty => do
            let bytes ← into_bytes ty input.headI
            .ok (arg.name, (named_cl_type_to_cl_type ty, bytes))
        let others ← compose fuel rest supplied types
        .ok (entry :: others)
    else do
      let bytes ← build_complex_arg parts supplied
      let others ← compose fuel rest supplied types
      .ok ((arg.name, (CLType.any, bytes)) :: others)

/-- Whether a decoded text needs no JSON escaping; within this guard the
object string the decoder assembles parses back and pretty-prints exactly
as `prettyJsonObject` renders it. -/
def jsonPlain (s : String) : Bool :=
  s.data.all (fun c => c != '"' && c != '\\' && decide (32 ≤ c.toNat))

/-- Models `serde_json::Value::from_str` composed with `to_string_pretty`
on the object literal the struct arm of `decode` assembles: two-space
indent, string fields in declared order.  Faithful when every name and
value passes `jsonPlain`; outside the guard the decoder panics, like the
source's `unwrap` on a failed parse. -/
def prettyJsonObject (fields : List (String × String)) : String :=
  if fields.isEmpty then "\x7b\x7d"
  else
    "\x7b\n" ++
      String.intercalate ",\n"
        (fields.map (fun f => "  \"" ++ f.1 ++ "\": \"" ++ f.2 ++ "\"")) ++
      "\n\x7d"

/-- Whether a decoded element is a canonical JSON integer (the only decoded
texts whose bracketed join parses as JSON without quoting). -/
def jsonCanonicalInt (s : String) : Bool :=
  match s.data with
  | [] => false
  | ['0'] => true
  | '0' :: _ => false
  | cs => cs.all (fun c => decide ('0' ≤ c) && decide (c ≤ '9'))

/-- Models the pretty printing of the list arm of `decode` for canonical
integer elements. -/
def prettyJsonArray (elems : List String) : String :=
  "[\n" ++ String.intercalate ",\n" (elems.map (fun e => "  " ++ e)) ++ "\n]"

/-- Port of `decode` of src/args.rs: a `Custom` name resolves through the
registry (`expect("Type not found")` on a miss); a struct decodes each
member in declared order, threading the remainder, and pretty-prints the
JSON object (a value that cannot be re-parsed is the source's `unwrap`
panic); an enum decodes one byte as `U8`, parses the text back as the
`u16` discriminant and returns the matching variant's name, consuming no
payload bytes (`expect("Variant not found")` on no match); a `List` reads
an unwrapped `u32` count, decodes that many inner values and pretty-prints
the JSON array; every other type goes to the leaf codec `from_bytes`.
Registry recursion is fuelled, structurally on the fuel. -/
def decodeValue : Nat → List Nat → NamedCLType → List CustomType →
    Except Error (String × List Nat)
  | 0, _, _, _ => .error .outOfFuel
  | fuel + 1, bytes, ty, types =>
    match ty with
    | .custom name =>
      match findType types name with
      | none => .error (.panicked "Type not found")
      | some (.structDef _ members) => do
        let (fields, rem) ← members.foldlM
          (fun (acc : List (String × String) × List Nat) m => do
            let (v, r) ← decodeValue fuel acc.2 m.ty types
            .ok (acc.1 ++ [(m.name, v)], r))
          ([], bytes)
        if fields.all (fun f => jsonPlain f.1 && jsonPlain f.2) then
          .ok (prettyJsonObject fields, rem)
        else .error (.panicked "Value::from_str failed")
      | some (.enumDef _ variants) => do
        let (value, rem) ← decodeValue fuel bytes .u8 types
        match parseRustUInt 65535 value.data with
        | none => .error (.panicked "parse u16 failed")
        | some d =>
          match variants.find? (fun v => v.discriminant == d) with
          | none => .error (.panicked "Variant not found")
          | some v => .ok (v.name, rem)
    | .list inner =>
      match readU32 bytes with
      | .error _ => .error (.panicked "u32 from_bytes failed")
      | .ok (len, stream) => do
        let (elems, rem) ← (List.range len).foldlM
          (fun (acc : List String × List Nat) _ => do
            let (v, r) ← decodeValue fuel acc.2 inner types
            .ok (acc.1 ++ [v], r))
          ([], stream)
        if elems.isEmpty then .error (.panicked "Value::from_str failed")
        else if elems.all jsonCanonicalInt then .ok (prettyJsonArray elems, rem)
        else .error (.panicked "Value::from_str failed")
    | _ => from_bytes ty bytes

/-- The registry entry of the test scenario: the struct
`NameTokenMetadata \x7b token_hash: String, expiration: u64,
resolver: Option<Address> \x7d` as its schema declares it. -/
def nameTokenRegistry : List CustomType :=
  [ .structDef "NameTokenMetadata"
      [ ⟨"token_hash", none, .string⟩,
        ⟨"expiration", none, .u64⟩,
        ⟨"resolver", none, .option .key⟩ ] ]

/-- The fixed 50-byte input `NAMED_TOKEN_METADATA_BYTES` of src/args.rs. -/
def NAMED_TOKEN_METADATA_BYTES : List Nat :=
  [4, 0, 0, 0, 107, 112, 111, 98, 0, 32, 74, 169, 209, 1, 0, 0, 1, 1, 226, 74, 54, 110, 186,
   196, 135, 233, 243, 218, 49, 175, 91, 142, 42, 103, 172, 205, 97, 76, 95, 247, 61, 188, 60,
   100, 10, 52, 124, 59, 94, 73]

/-- The expected pretty JSON `NAMED_TOKEN_METADATA_JSON` of src/args.rs. -/
def NAMED_TOKEN_METADATA_JSON : String :=
  "\x7b\n  \"token_hash\": \"kpob\",\n  \"expiration\": \"2000000000000\",\n  \"resolver\": \"Key::Hash(e24a366ebac487e9f3da31af5b8e2a67accd614c5ff73dbc3c640a347c3b5e49)\"\n\x7d"

deriving instance DecidableEq for Except

/-- C1.  The claim asserts that for every leaf type the decoder consumes
exactly the bytes the encoder produced and returns the canonical text.
The `Option` arm of `from_bytes` refutes it: encoding the absent option
`none` produces the single tag byte `[0]`, but decoding returns the text
`null` together with the WHOLE input as the remainder — zero bytes are
consumed and the tag byte (plus any suffix) is handed back, so a sequential
decode would re-read the tag.  This contradicts the spec's own §4.3/§8
byte-exactness requirement, so the code, not the claim, is at fault. -/
theorem c1_option_none_decode_divergence :
    into_bytes (.option .bool) "none" = .ok [0] ∧
    from_bytes (.option .bool) [0, 7] = .ok ("null", [0, 7]) ∧
    from_bytes (.option .bool) ([0] ++ [7]) ≠ .ok ("none", [7]) := by
  refine ⟨by decide, by decide, by decide⟩

/-- C6.  Decoding the fixed 50-byte `NameTokenMetadata` buffer against the
registry containing that struct yields exactly the expected pretty JSON
object and consumes all 50 bytes, leaving an empty remainder — the
behaviour the source's `test_decode` pins down. -/
theorem c6_decode_name_token_metadata :
    decodeValue 8 NAMED_TOKEN_METADATA_BYTES (.custom "NameTokenMetadata") nameTokenRegistry =
      .ok (NAMED_TOKEN_METADATA_JSON, []) := by
  decide

/-- C3 counterexample.  The claim says every public core operation returns
an error value rather than panicking, for every input.  It is false: the
leaf codec's `Custom` arms are `unreachable!("should not be here")`, the
`Option` decode arm slices `&input[1..]` out of range on an empty buffer,
the `ByteArray` decode arm indexes past the end of a short buffer, and the
composer's value lookup is `expect("Arg not found")` — all panics
(modelled as `Error.panicked`), not returned errors. -/
theorem c3_operations_panic_cex :
    into_bytes (.custom "Foo") "x" = .error (.panicked "should not be here") ∧
    from_bytes (.custom "Foo") [1] = .error (.panicked "should not be here") ∧
    from_bytes (.option .bool) [] = .error (.panicked "slice start index 1 out of range") ∧
    from_bytes (.byteArray 1) [] = .error (.panicked "index out of bounds") ∧
    build_complex_arg [⟨"p.a", true, "", .string, false⟩] [] =
      .error (.panicked "Arg not found") := by
  refine ⟨rfl, rfl, by decide, by decide, by decide⟩

/-- C3 as amended: data-level failures are returned as error values, but
the operations can panic; in particular the leaf codec panics
(`unreachable!`) on every `Custom` descriptor and every input, rather than
returning an ordinary error. -/
theorem c3_leaf_codec_custom_panics (name input : String) (bs : List Nat) :
    into_bytes (.custom name) input = .error (.panicked "should not be here") ∧
    from_bytes (.custom name) bs = .error (.panicked "should not be here") :=
  ⟨rfl, rfl⟩

/-- C5 counterexample.  The claim says an unresolved `Custom("DoesNotExist")`
fails with an `UnknownType` error returned to the caller and never panics.
In fact both `flat_arg` and `decode` call `expect("Type not found")`, a
panic (the source's error type has no `UnknownType` variant at all). -/
theorem c5_unknown_type_cex :
    flat_arg 1 ⟨"x", .custom "DoesNotExist", false, none⟩ [] false =
      .error (.panicked "Type not found") ∧
    decodeValue 1 [] (.custom "DoesNotExist") [] = .error (.panicked "Type not found") :=
  ⟨rfl, rfl⟩

/-- C5 as amended: for every registry lacking an entry named `nm`,
flattening or decoding `Custom(nm)` panics with `Type not found`
(`expect`), instead of returning an `UnknownType` error. -/
theorem c5_unknown_type_panics (fuel : Nat) (nm argName : String) (opt : Bool)
    (d : Option String) (types : List CustomType) (isle : Bool) (bytes : List Nat)
    (h : findType types nm = none) :
    flat_arg (fuel + 1) ⟨argName, .custom nm, opt, d⟩ types isle =
      .error (.panicked "Type not found") ∧
    decodeValue (fuel + 1) bytes (.custom nm) types =
      .error (.panicked "Type not found") := by
  constructor
  · simp [flat_arg, h]
  · simp [decodeValue, h]

/-- C5 witness: a registry with one unrelated entry and the missing name
`Missing`. -/
theorem c5_unknown_type_panics_witness :
    flat_arg 4 ⟨"arg", .custom "Missing", true, none⟩ [.structDef "Other" []] true =
      .error (.panicked "Type not found") ∧
    decodeValue 4 [1, 2] (.custom "Missing") [.structDef "Other" []] =
      .error (.panicked "Type not found") :=
  c5_unknown_type_panics 3 "Missing" "arg" true none [.structDef "Other" []] true [1, 2]
    (by decide)

/-- C7 counterexample.  The claim says a leaf with `required = false` and
no supplied value contributes zero bytes and is skipped.  In the composite
case (two or more leaves) the composer's `get_many(..).expect("Arg not
found")` panics on the absent optional leaf `p.b` instead of skipping
it. -/
theorem c7_missing_optional_panics_cex :
    build_complex_arg
      [⟨"p.a", true, "", .string, false⟩, ⟨"p.b", false, "", .u64, false⟩]
      [("p.a", ["x"])] = .error (.panicked "Arg not found") := by
  decide

/-- C7 as amended: in the degenerate single-leaf case an argument with no
supplied values is skipped entirely (the whole argument contributes
nothing), while in the composite case any leaf with no supplied value —
optional or not — makes the composer panic with `Arg not found`. -/
theorem c7_missing_value_behavior :
    (∀ (fuel : Nat) (arg : Argument) (types : List CustomType)
        (supplied : List (String × List String)) (leaf : CommandArg),
      flat_arg fuel arg types false = .ok [leaf] →
      (lookupValues supplied arg.name).getD [] = [] →
      compose fuel [arg] supplied types = .ok []) ∧
    (∀ (a : CommandArg) (rest : List CommandArg)
        (supplied : List (String × List String)),
      lookupValues supplied a.name = none →
      build_complex_arg (a :: rest) supplied = .error (.panicked "Arg not found")) := by
  constructor
  · intro fuel arg types supplied leaf hflat hvals
    simp [compose, hflat, hvals, Except.bind, Bind.bind]
  · intro a rest supplied h
    simp [build_complex_arg, buildWalk, h]

/-- C7 witness: an absent optional single-leaf argument is skipped; an
absent composite leaf panics. -/
theorem c7_missing_value_behavior_witness :
    compose 3 [⟨"opt", .u64, true, none⟩] [] [] = .ok [] ∧
    build_complex_arg [⟨"q.c", false, "", .bool, false⟩] [] =
      .error (.panicked "Arg not found") := by
  constructor
  · exact c7_missing_value_behavior.1 3 ⟨"opt", .u64, true, none⟩ [] []
      ⟨"opt", false, "", .u64, false⟩ (by decide) (by decide)
  · exact c7_missing_value_behavior.2 ⟨"q.c", false, "", .bool, false⟩ [] [] (by decide)

set_option maxRecDepth 4000 in
/-- Decimal round trip of one byte value through `Nat.repr` and the Rust
`u16` parser (the enum arm re-parses the decoded `u8` text). -/
theorem parse_repr_byte : ∀ b : Nat, b < 256 → parseRustUInt 65535 (Nat.repr b).data = some b := by
  decide

/-- C9.  For a registered enum and a buffer whose first byte matches a
declared discriminant, `decode` consumes exactly that one byte (the `U8`
decode), returns the first matching variant's name as the text, and hands
back the rest of the buffer untouched — no payload bytes are consumed. -/
theorem c9_enum_decode_discriminant (fuel : Nat) (types : List CustomType)
    (name ename : String) (variants : List EnumVariant) (b : Nat) (rest : List Nat)
    (v : EnumVariant)
    (hty : findType types name = some (.enumDef ename variants))
    (hb : b < 256)
    (hv : variants.find? (fun vv => vv.discriminant == b) = some v) :
    decodeValue (fuel + 2) (b :: rest) (.custom name) types = .ok (v.name, rest) := by
  have hparse := parse_repr_byte b hb
  simp [decodeValue, hty, from_bytes, hparse, hv, Except.bind, Bind.bind]

/-- C9 witness: a two-variant enum, buffer `[7, 9, 9]`: one byte consumed,
variant `B` returned, remainder `[9, 9]`. -/
theorem c9_enum_decode_discriminant_witness :
    decodeValue 2 [7, 9, 9] (.custom "Sample")
      [.enumDef "Sample" [⟨"A", none, 0, .unit⟩, ⟨"B", none, 7, .unit⟩]] =
      .ok ("B", [9, 9]) :=
  c9_enum_decode_discriminant 0
    [.enumDef "Sample" [⟨"A", none, 0, .unit⟩, ⟨"B", none, 7, .unit⟩]]
    "Sample" "Sample" [⟨"A", none, 0, .unit⟩, ⟨"B", none, 7, .unit⟩] 7 [9, 9]
    ⟨"B", none, 7, .unit⟩ (by decide) (by decide) (by decide)

/-- Whether an `Except` is a success (a decidable side condition). -/
def isOkE {α : Type} : Except Error α → Bool
  | .ok _ => true
  | .error _ => false

/-- Total encoding helper used to state byte layouts: the encoder's bytes
when it succeeds, `[]` otherwise. -/
def encodeOr (ty : NamedCLType) (v : String) : List Nat :=
  match into_bytes ty v with
  | .ok bs => bs
  | .error _ => []

/-- One flush record is the concatenation, in group order, of every
column's encoding of its value at index `i`. -/
theorem encodeRecord_ok (i : Nat) :
    ∀ cols : List (NamedCLType × List String),
      (∀ c ∈ cols, i < c.2.length ∧ isOkE (into_bytes c.1 (c.2.getD i "")) = true) →
      encodeRecord cols i = .ok (cols.flatMap (fun c => encodeOr c.1 (c.2.getD i ""))) := by
  intro cols
  induction cols with
  | nil => intro _; simp [encodeRecord]
  | cons c cs ih =>
    intro h
    obtain ⟨hlen, hok⟩ := h c (List.mem_cons_self _ _)
    obtain ⟨ty, vs⟩ := c
    cases hg : vs[i]? with
    | none =>
      exfalso
      simp at hlen
      have : ¬ i < vs.length := by
        intro hlt
        rw [List.getElem?_eq_getElem hlt] at hg
        exact Option.noConfusion hg
      exact this hlen
    | some v =>
      have hgd : vs.getD i "" = v := by
        simp [List.getD_eq_getElem?_getD, hg]
      rw [hgd] at hok
      cases henc : into_bytes ty v with
      | error e => rw [henc] at hok; simp [isOkE] at hok
      | ok bs =>
        have hrest := ih (fun c hc => h c (List.mem_cons_of_mem _ hc))
        simp [encodeRecord, hg, henc, hrest, Except.bind, Bind.bind, encodeOr, hgd]

/-- The flush record loop emits records `i, i+1, ..., i+k-1`, each laid
out by `encodeRecord_ok`. -/
theorem encodeRecordsFrom_ok (cols : List (NamedCLType × List String)) :
    ∀ (k i : Nat),
      (∀ c ∈ cols, ∀ j : Nat, j < k → i + j < c.2.length ∧
        isOkE (into_bytes c.1 (c.2.getD (i + j) "")) = true) →
      encodeRecordsFrom cols i k =
        .ok ((List.range k).flatMap
          (fun j => cols.flatMap (fun c => encodeOr c.1 (c.2.getD (i + j) "")))) := by
  intro k
  induction k with
  | zero => intro i _; simp [encodeRecordsFrom]
  | succ k ih =>
    intro i h
    have h0 : ∀ c ∈ cols, i < c.2.length ∧
        isOkE (into_bytes c.1 (c.2.getD i "")) = true := by
      intro c hc
      have := h c hc 0 (Nat.succ_pos k)
      simpa using this
    have hrec := encodeRecord_ok i cols h0
    have hrest := ih (i + 1) (fun c hc j hj => by
      have hh := h c hc (j + 1) (by omega)
      have e : i + (j + 1) = i + 1 + j := by omega
      rw [e] at hh
      exact hh)
    have efun : (fun j : Nat => cols.flatMap fun c => encodeOr c.1 (c.2.getD (i + 1 + j) "")) =
        (fun j : Nat => cols.flatMap fun c => encodeOr c.1 (c.2.getD (i + j.succ) "")) := by
      funext j
      have e : i + 1 + j = i + j.succ := by omega
      rw [e]
    rw [List.range_succ_eq_map]
    simp only [encodeRecordsFrom, hrec, hrest, Except.bind, Bind.bind, List.flatMap_cons,
      List.flatMap_map, Nat.add_zero, Function.comp]
    rw [efun]

/-- C2.  Flushing a non-empty group whose columns all have value lists of
length `L` (and whose values all encode) emits a 4-byte little-endian
count `L` followed by, for each record index `i` in `0..L`, the `i`-th
value of every column encoded in group order — records interleaved, not
grouped by field. -/
theorem c2_flush_interleaves_records (cols : List (NamedCLType × List String)) (L : Nat)
    (hne : cols ≠ [])
    (hlen : ∀ c ∈ cols, c.2.length = L)
    (henc : ∀ c ∈ cols, ∀ i : Nat, i < L → isOkE (into_bytes c.1 (c.2.getD i "")) = true) :
    flushGroup cols = .ok (u32le L ++
      (List.range L).flatMap
        (fun i => cols.flatMap (fun c => encodeOr c.1 (c.2.getD i "")))) := by
  match cols, hne with
  | (ty0, vs0) :: cs, _ =>
    have hv : vs0.length = L := by
      have := hlen (ty0, vs0) (List.mem_cons_self _ _)
      simpa using this
    have hbody := encodeRecordsFrom_ok ((ty0, vs0) :: cs) L 0 (by
      intro c hc j hj
      have h1 := hlen c hc
      have h2 := henc c hc j hj
      constructor
      · omega
      · simpa using h2)
    have hbody0 : encodeRecordsFrom ((ty0, vs0) :: cs) 0 L =
        .ok ((List.range L).flatMap
          (fun j => ((ty0, vs0) :: cs).flatMap (fun c => encodeOr c.1 (c.2.getD j "")))) := by
      have efun : (fun j : Nat =>
            ((ty0, vs0) :: cs).flatMap fun c => encodeOr c.1 (c.2.getD (0 + j) "")) =
          (fun j : Nat =>
            ((ty0, vs0) :: cs).flatMap fun c => encodeOr c.1 (c.2.getD j "")) := by
        funext j
        rw [Nat.zero_add]
      rw [hbody, efun]
    simp [flushGroup, hv, hbody0, Except.bind, Bind.bind]

/-- C2 witness: the claim's own example, a struct with fields
`a : String, b : U64` and columns `a = [x, y]`, `b = [1, 2]`: the output
is count 2, then `encode(String, x)`, `encode(U64, 1)`,
`encode(String, y)`, `encode(U64, 2)`. -/
theorem c2_flush_interleaves_records_witness :
    flushGroup [(.string, ["x", "y"]), (.u64, ["1", "2"])] =
      .ok ([2, 0, 0, 0] ++
        ([1, 0, 0, 0, 120] ++ [1, 0, 0, 0, 0, 0, 0, 0]) ++
        ([1, 0, 0, 0, 121] ++ [2, 0, 0, 0, 0, 0, 0, 0])) := by
  have h := c2_flush_interleaves_records [(.string, ["x", "y"]), (.u64, ["1", "2"])] 2
    (by decide) (by decide) (by decide)
  exact h.trans (by decide)

/-- Reading back a 4-byte little-endian count: `readU32` consumes exactly
the four bytes `u32le n` wrote and recovers `n` when it fits in 32
bits. -/
theorem readU32_u32le (n : Nat) (rest : List Nat) (h : n < 4294967296) :
    readU32 (u32le n ++ rest) = .ok (n, rest) := by
  simp [u32le, readU32]
  omega

/-- Element-wise successful encoding lifts to the encoder's `mapM`. -/
theorem mapM_ok_of_forall2 (T : NamedCLType) :
    ∀ (texts : List String) (encs : List (List Nat)),
      List.Forall₂ (fun t e => into_bytes T t = .ok e) texts encs →
      texts.mapM (fun t => into_bytes T t) = .ok encs := by
  intro texts encs h
  induction h with
  | nil => rfl
  | cons h1 _ ih =>
    simp only [List.mapM_cons, h1, ih]
    rfl

/-- Element-wise exact decoding lifts to the decode loop: `n` elements are
recovered in order and the remainder starts right after the last element's
encoding. -/
theorem decodeTimes_roundtrip (T : NamedCLType) :
    ∀ (texts : List String) (encs : List (List Nat)) (suffix : List Nat),
      List.Forall₂ (fun t e => ∀ rest, from_bytes T (e ++ rest) = .ok (t, rest)) texts encs →
      decodeTimes (fun bs => from_bytes T bs) texts.length (encs.flatten ++ suffix) =
        .ok (texts, suffix) := by
  intro texts encs suffix h
  induction h with
  | nil => simp [decodeTimes]
  | cons h1 _ ih =>
    simp only [List.length_cons, List.flatten_cons, List.append_assoc, decodeTimes]
    rw [h1]
    simp [ih, Except.bind, Bind.bind]

/-- C8.  For a list whose element texts each encode successfully and
round-trip exactly (decoding consumes precisely the element's encoding),
`vec_into_bytes` emits a 4-byte count `n` followed by exactly the
concatenation of the `n` element encodings in order, and `from_bytes` on
that buffer recovers the same `n` element texts in order (joined with
commas) with the remainder positioned immediately after the last
element. -/
theorem c8_list_roundtrip (T : NamedCLType) (texts : List String)
    (encs : List (List Nat)) (suffix : List Nat)
    (hlen : texts.length < 4294967296)
    (h : List.Forall₂ (fun t e => into_bytes T t = .ok e ∧
          ∀ rest, from_bytes T (e ++ rest) = .ok (t, rest)) texts encs) :
    vec_into_bytes T texts = .ok (u32le texts.length ++ encs.flatten) ∧
    from_bytes (.list T) (u32le texts.length ++ encs.flatten ++ suffix) =
      .ok (String.intercalate "," texts, suffix) := by
  have henc : List.Forall₂ (fun t e => into_bytes T t = .ok e) texts encs :=
    h.imp (fun _ _ hh => hh.1)
  have hdec : List.Forall₂ (fun t e => ∀ rest, from_bytes T (e ++ rest) = .ok (t, rest))
      texts encs :=
    h.imp (fun _ _ hh => hh.2)
  constructor
  · have hm := mapM_ok_of_forall2 T texts encs henc
    simp only [vec_into_bytes]
    rw [hm]
    rfl
  · have hr := readU32_u32le texts.length (encs.flatten ++ suffix) hlen
    have hd := decodeTimes_roundtrip T texts encs suffix hdec
    simp [from_bytes, List.append_assoc, hr, hd, Except.bind, Bind.bind]

/-- C8 witness: two `U8` elements and a suffix byte: count 2, the two
one-byte encodings, decode recovers `1,2` leaving exactly the suffix. -/
theorem c8_list_roundtrip_witness :
    vec_into_bytes .u8 ["1", "2"] = .ok [2, 0, 0, 0, 1, 2] ∧
    from_bytes (.list .u8) [2, 0, 0, 0, 1, 2, 9] = .ok ("1,2", [9]) := by
  have h := c8_list_roundtrip .u8 ["1", "2"] [[1], [2]] [9] (by decide)
    (List.Forall₂.cons ⟨by decide, fun rest => rfl⟩
      (List.Forall₂.cons ⟨by decide, fun rest => rfl⟩ List.Forall₂.nil))
  refine ⟨h.1.trans (by decide), ?_⟩
  have h2 := h.2
  simpa using h2

/-- Successful value of an `Except` (`none` on any error): the refinement
claim compares the two flattenings on their successful outcomes. -/
def resOk {α : Type} : Except Error α → Option α
  | .ok a => some a
  | .error _ => none

/-- Congruence of `resOk` under `Except` bind: computations agreeing on
success, continued by pointwise agreeing continuations, agree. -/
theorem resOk_bind_cong {α β : Type} (a b : Except Error α) (f g : α → Except Error β)
    (hab : resOk a = resOk b) (hfg : ∀ x, resOk (f x) = resOk (g x)) :
    resOk (a >>= f) = resOk (b >>= g) := by
  cases a with
  | error e =>
    cases b with
    | error e2 => rfl
    | ok y => simp [resOk] at hab
  | ok x =>
    cases b with
    | error e2 => simp [resOk] at hab
    | ok y =>
      simp [resOk] at hab
      subst hab
      exact hfg x

/-- Congruence of `resOk` under `mapM`: element-wise agreeing traversal
bodies give agreeing traversals. -/
theorem resOk_mapM {α β : Type} (f g : α → Except Error β) :
    ∀ ms : List α, (∀ m ∈ ms, resOk (f m) = resOk (g m)) →
      resOk (ms.mapM f) = resOk (ms.mapM g) := by
  intro ms
  induction ms with
  | nil => intro _; rfl
  | cons m ms ih =>
    intro h
    rw [List.mapM_cons, List.mapM_cons]
    exact resOk_bind_cong _ _ _ _ (h m (List.mem_cons_self _ _))
      (fun x => resOk_bind_cong _ _ _ _
        (ih (fun y hy => h y (List.mem_cons_of_mem _ hy))) (fun xs => rfl))

/-- C4.  The source flattening `flat_arg` and the specification's
depth-first, declaration-order traversal `specFlatten` agree on every
successful outcome, for every fuel, argument, registry and
`is_list_element` flag: structs contribute their members' leaves in
declared order under `parent.member` with `optional` inherited, enums
their variants' leaves under the lowercased variant name, `List` forces
`is_list_element` for its whole subtree, and every other type yields
exactly one leaf with `required = !optional`.  (On an unresolved `Custom`
name both fail — the source by panicking, the spec with `UnknownType` —
so the agreement on successes is exactly the claim's hypothesis that all
`Custom` references resolve.) -/
theorem c4_flatten_matches_spec (fuel : Nat) :
    ∀ (arg : Argument) (types : List CustomType) (is_list_elem : Bool),
      resOk (flat_arg fuel arg types is_list_elem) =
        resOk (specFlatten fuel arg types is_list_elem) := by
  induction fuel with
  | zero => intro arg types e; rfl
  | succ fuel ih =>
    intro arg types e
    obtain ⟨nm, ty, opt, d⟩ := arg
    cases ty
    case custom name =>
      simp only [flat_arg, specFlatten]
      cases hft : findType types name with
      | none => rfl
      | some ct =>
        cases ct with
        | structDef n members =>
          exact resOk_bind_cong _ _ _ _
            (resOk_mapM _ _ members (fun m _ => ih _ types e)) (fun ps => rfl)
        | enumDef n variants =>
          exact resOk_bind_cong _ _ _ _
            (resOk_mapM _ _ variants (fun v _ => ih _ types e)) (fun ps => rfl)
    case list inner =>
      simpa only [flat_arg, specFlatten] using ih ⟨nm, inner, opt, d⟩ types true
    all_goals rfl


/-- `str::split` never yields an empty piece list. -/
theorem splitChar_ne_nil (sep : Char) : ∀ l : List Char, splitChar sep l ≠ [] := by
  intro l
  cases l with
  | nil => simp [splitChar]
  | cons c rest =>
    simp only [splitChar]
    split <;> simp

/-- The first piece of `str::split` is a prefix of the input. -/
theorem splitChar_headI_prefix (sep : Char) : ∀ l : List Char, (splitChar sep l).headI <+: l := by
  intro l
  induction l with
  | nil => simp [splitChar]
  | cons c rest ih =>
    simp only [splitChar]
    split
    · simp
    · cases hs : splitChar sep rest with
      | nil => exact absurd hs (splitChar_ne_nil sep rest)
      | cons p ps =>
        rw [hs] at ih
        simp only [List.headI] at ih ⊢
        obtain ⟨t, ht⟩ := ih
        exact ⟨t, by simp [ht]⟩

/-- A split with at least two pieces means the separator occurs in the
input. -/
theorem splitChar_mem_of_two_le (sep : Char) :
    ∀ l : List Char, 2 ≤ (splitChar sep l).length → sep ∈ l := by
  intro l
  induction l with
  | nil => intro h; simp [splitChar] at h
  | cons c rest ih =>
    simp only [splitChar]
    split
    · next hceq =>
      intro _
      subst hceq
      exact List.mem_cons_self _ _
    · intro h
      cases hs : splitChar sep rest with
      | nil => exact absurd hs (splitChar_ne_nil sep rest)
      | cons p ps =>
        rw [hs] at h
        simp only [List.tail, List.length_cons] at h
        have : 2 ≤ (splitChar sep rest).length := by rw [hs]; simp; omega
        exact List.mem_cons_of_mem _ (ih this)

/-- A character list that starts with `0x` is literally `0 :: x :: rest`. -/
theorem has0x_shape : ∀ l : List Char, has0x l = true → ∃ r, l = '0' :: 'x' :: r := by
  intro l h
  unfold has0x at h
  split at h
  · next r => exact ⟨r, rfl⟩
  · exact absurd h (by simp)

/-- A prefix starting with `0x` forces the whole list to start with
`0x`. -/
theorem has0x_of_prefix (p l : List Char) (hpre : p <+: l) (hp : has0x p = true) :
    has0x l = true := by
  obtain ⟨r, rfl⟩ := has0x_shape p hp
  obtain ⟨t, rfl⟩ := hpre
  rfl

/-- When the input does not start with `0x`, neither does the first
comma-split piece, so the all-pieces-start-with-0x test is always
false — the guarded branch of the `ByteArray` fallback is unreachable. -/
theorem all0x_false_of_not0x (l : List Char) (h : has0x l = false) :
    (splitChar ',' l).all (fun p => has0x p) = false := by
  cases hall : (splitChar ',' l).all (fun p => has0x p)
  · rfl
  · exfalso
    cases hs : splitChar ',' l with
    | nil => exact splitChar_ne_nil ',' l hs
    | cons p ps =>
      have hp : has0x p = true := by
        have := List.all_eq_true.mp (hs ▸ hall) p (List.mem_cons_self _ _)
        simpa using this
      have hpre : p <+: l := by
        have hh := splitChar_headI_prefix ',' l
        rw [hs] at hh
        simpa [List.headI] using hh
      have htrue := has0x_of_prefix p l hpre hp
      rw [htrue] at h
      exact absurd h (by simp)

/-- Fuelled form of `hexDecodeChars_none_of_comma`. -/
theorem hexDecodeChars_none_aux : ∀ (n : Nat) (l : List Char), l.length ≤ n → ',' ∈ l →
    hexDecodeChars l = none := by
  intro n
  induction n with
  | zero =>
    intro l hl hm
    have : l = [] := List.eq_nil_of_length_eq_zero (by omega)
    subst this
    simp at hm
  | succ n ih =>
    intro l hl hm
    match l, hl, hm with
    | [], _, hm => simp at hm
    | [c], _, _ => rfl
    | c1 :: c2 :: rest, hl, hm =>
      have hv : hexVal ',' = none := by decide
      rcases List.mem_cons.mp hm with h1 | hm2
      · rw [← h1]
        simp [hexDecodeChars, hv]
      · rcases List.mem_cons.mp hm2 with h2 | hm3
        · rw [← h2]
          cases hx1 : hexVal c1 <;> simp [hexDecodeChars, hx1, hv]
        · have hrest : hexDecodeChars rest = none := by
            apply ih rest _ hm3
            simp at hl
            omega
          cases hx1 : hexVal c1 <;> cases hx2 : hexVal c2 <;>
            simp [hexDecodeChars, hx1, hx2, hrest]

/-- A comma is not a hex digit, so `hex::decode` fails on any input
containing one. -/
theorem hexDecodeChars_none_of_comma (l : List Char) (hm : ',' ∈ l) :
    hexDecodeChars l = none :=
  hexDecodeChars_none_aux l.length l le_rfl hm

/-- A successful `Option` traversal preserves the list length. -/
theorem mapM_some_length {α β : Type} (f : α → Option β) :
    ∀ (l : List α) (bs : List β), l.mapM f = some bs → bs.length = l.length := by
  intro l
  induction l with
  | nil =>
    intro bs h
    simp [List.mapM.loop] at h
    subst h
    rfl
  | cons a as ih =>
    intro bs h
    rw [List.mapM_cons] at h
    cases hf : f a with
    | none => rw [hf] at h; simp at h
    | some b =>
      rw [hf] at h
      cases hm : as.mapM f with
      | none => rw [hm] at h; simp at h
      | some bs' =>
        rw [hm] at h
        simp at h
        rw [← h]
        simp [ih bs' hm]

/-- `parse_hex` reports `InvalidHexString` exactly when the `0x` prefix is
missing. -/
theorem parse_hex_of_not0x (input : String) (h : has0x input.data = false) :
    parse_hex input = .error .invalidHexString := by
  unfold parse_hex
  split
  · next rest heq =>
    rw [heq] at h
    simp [has0x] at h
  · rfl

/-- With the `0x` prefix but an undecodable tail, `parse_hex` reports
`HexDecodeError`. -/
theorem parse_hex_of_0x_none (input : String) (r : List Char)
    (h : input.data = '0' :: 'x' :: r) (hd : hexDecodeChars r = none) :
    parse_hex input = .error .hexDecodeError := by
  unfold parse_hex
  rw [h]
  simp [hd]

/-- With the `0x` prefix and a decodable tail, `parse_hex` succeeds. -/
theorem parse_hex_of_0x_some (input : String) (r : List Char) (bs : List Nat)
    (h : input.data = '0' :: 'x' :: r) (hd : hexDecodeChars r = some bs) :
    parse_hex input = .ok bs := by
  unfold parse_hex
  rw [h]
  simp [hd]

/-- C10.  The comma-split fallback of the `ByteArray` encoder is only
entered when the input does not start with `0x`, so its first piece never
carries the prefix and the all-pieces-are-0x branch is unreachable (first
conjunct); an input that actually contains a comma and whose pieces all
start with `0x` always fails with a hex-decode error on the whole string
(second conjunct); and an encode succeeds only for a single whole-input
`0x` hex string decoding to exactly `n` bytes or a comma-separated list of
exactly `n` plain decimal byte values (third conjunct). -/
theorem c10_bytearray_hex_fallback (n : Nat) (input : String) :
    (((!has0x input.data) && (splitChar ',' input.data).all (fun p => has0x p)) = false) ∧
    (2 ≤ (splitChar ',' input.data).length →
      (splitChar ',' input.data).all (fun p => has0x p) = true →
      into_bytes (.byteArray n) input = .error .hexDecodeError) ∧
    (∀ bytes : List Nat, into_bytes (.byteArray n) input = .ok bytes →
      bytes.length = n ∧
      ((has0x input.data = true ∧ parse_hex input = .ok bytes) ∨
       (has0x input.data = false ∧ (splitChar ',' input.data).length = n ∧
        (splitChar ',' input.data).mapM (fun p => parseRustUInt 255 p) = some bytes))) := by
  refine ⟨?_, ?_, ?_⟩
  · cases h0 : has0x input.data
    · rw [all0x_false_of_not0x input.data h0]
      simp
    · simp
  · intro h2 hall
    have h0 : has0x input.data = true := by
      cases h0 : has0x input.data
      · rw [all0x_false_of_not0x input.data h0] at hall
        exact absurd hall (by simp)
      · rfl
    obtain ⟨r, hr⟩ := has0x_shape input.data h0
    have hmem : ',' ∈ input.data := splitChar_mem_of_two_le ',' input.data h2
    have hmr : ',' ∈ r := by
      rw [hr] at hmem
      rcases List.mem_cons.mp hmem with hc | hmem2
      · exact absurd hc (by decide)
      · rcases List.mem_cons.mp hmem2 with hc | hm3
        · exact absurd hc (by decide)
        · exact hm3
    have hpe := parse_hex_of_0x_none input r hr (hexDecodeChars_none_of_comma r hmr)
    simp [into_bytes, hpe]
  · intro bytes hok
    cases h0 : has0x input.data
    · have hpe := parse_hex_of_not0x input h0
      have hallf := all0x_false_of_not0x input.data h0
      simp only [into_bytes, hpe, hallf] at hok
      unfold validate_byte_array_size at hok
      split at hok
      · simp [Except.bind, Bind.bind] at hok
      · next hlen =>
        simp [Except.bind, Bind.bind, Bool.false_eq_true, if_false] at hok
        cases hm : (splitChar ',' input.data).mapM (fun p => parseRustUInt 255 p) with
        | none =>
          have hm2 := hm
          simp only [List.mapM] at hm2
          rw [hm2] at hok
          simp at hok
        | some bs =>
          have hm2 := hm
          simp only [List.mapM] at hm2
          rw [hm2] at hok
          simp at hok
          subst hok
          have hlen2 : (splitChar ',' input.data).length = n := by omega
          refine ⟨?_, Or.inr ⟨rfl, hlen2, rfl⟩⟩
          rw [mapM_some_length _ _ _ hm, hlen2]
    · obtain ⟨r, hr⟩ := has0x_shape input.data h0
      cases hd : hexDecodeChars r with
      | none =>
        have hpe := parse_hex_of_0x_none input r hr hd
        simp [into_bytes, hpe] at hok
      | some data =>
        have hpe := parse_hex_of_0x_some input r data hr hd
        simp only [into_bytes, hpe] at hok
        unfold validate_byte_array_size at hok
        split at hok
        · simp [Except.bind, Bind.bind] at hok
        · next hlen =>
          simp [Except.bind, Bind.bind] at hok
          subst hok
          refine ⟨by omega, Or.inl ⟨rfl, ?_⟩⟩
          rw [hpe]

/-- C10 witness: `0x01,0x02` — every comma piece carries `0x`, and the
encode fails with a hex-decode error on the whole string. -/
theorem c10_bytearray_hex_fallback_witness :
    into_bytes (.byteArray 2) "0x01,0x02" = .error .hexDecodeError :=
  (c10_bytearray_hex_fallback 2 "0x01,0x02").2.1 (by decide) (by decide)
